import Mathlib

/-!
Verification of the core of `multi-connectionstring`:
config parsing/normalization (`config-loader.js`: `parseRawToModel`,
`serializeModel`, `loadConfig`, `saveConfig`, `validateConnectionString`)
and connection resolution / persistence (`index.js`: `getActiveConnection`,
`listConnections`, `getConnectionByKey`, `setActiveConnection`).

Embedding notes.
JavaScript values flowing through this code are the JSON-representable
dynamic values produced by `JSON.parse` / `YAML.parse` / `INI.parse`;
they are modelled by the inductive `JsVal` (numbers as `Int`, which is all
the claims need).  JavaScript objects are insertion-ordered maps with
unique keys; they are modelled as association lists `List (String × JsVal)`.
Property read (`o.k`), property write (`o.k = v`, or the spread
`{ ...o, k: v }`) and `Object.entries` are modelled by `findEntry`,
`setField` and `entriesOf`, matching JS semantics on lists whose keys are
unique (read = first match; write = replace in place, else append).

The three serialization libraries (`JSON`, `yaml`, `ini`) are external
dependencies, not code of this repository.  They are modelled at the
structural level: emitting a value to text and re-parsing that text is the
identity on the generic structure, so `serializeModel` directly returns the
raw structure that a subsequent parse of the written file produces.
What IS transcribed from the repository is everything `config-loader.js`
and `index.js` do around those libraries: which structure is emitted per
format (the whole model for json/yaml, only `model.clients` for ini), the
`clients`-wrapping logic, validation, coercion, resolution and rewriting.
-/

namespace Mcs

/-- JS `String.prototype.trim`: strip whitespace from both ends
(list-based so that it evaluates by reduction). -/
def jsTrim (s : String) : String :=
  ⟨((s.data.dropWhile Char.isWhitespace).reverse.dropWhile Char.isWhitespace).reverse⟩

/-- JS `String.prototype.toLowerCase` on the ASCII range relevant to the
`active` coercion (list-based so that it evaluates by reduction). -/
def jsToLower (s : String) : String :=
  ⟨s.data.map Char.toLower⟩

/-- Generic JSON-like dynamic value (the shape produced by the external
parsers and consumed by `parseRawToModel`). -/
inductive JsVal where
  | null
  | bool (b : Bool)
  | num (n : Int)
  | str (s : String)
  | arr (elems : List JsVal)
  | obj (fields : List (String × JsVal))

/-- JavaScript truthiness (`!!v`) on the modelled values; a missing
property (JS `undefined`) is handled at `Option` level by `truthyOpt`. -/
def truthy : JsVal → Bool
  | .null => false
  | .bool b => b
  | .num n => n != 0
  | .str s => s != ""
  | .arr _ => true
  | .obj _ => true

/-- Truthiness of a property read: JS `undefined` (absent) is falsy. -/
def truthyOpt : Option JsVal → Bool
  | none => false
  | some v => truthy v

/-- Property read on an association list: first entry with the key
(JS objects have unique keys, so this is JS property access). -/
def findEntry {α : Type} : List (String × α) → String → Option α
  | [], _ => none
  | p :: rest, k => if p.1 == k then some p.2 else findEntry rest k

/-- Property write on an association list: replace the first entry with the
key in place, else append at the end (JS `o[k] = v` semantics on
unique-key objects, and also the effect of `{ ...o, k: v }`). -/
def setField : List (String × JsVal) → String → JsVal → List (String × JsVal)
  | [], k, v => [(k, v)]
  | p :: rest, k, v => if p.1 == k then (k, v) :: rest else p :: setField rest k v

/-- Drop every entry with the given key (used to state "all fields other
than this one are unchanged"). -/
def eraseField (fs : List (String × JsVal)) (k : String) : List (String × JsVal) :=
  fs.filter fun p => p.1 != k

/-- JS `Object.entries`: fields for objects, index/value pairs for arrays
(array indices enumerate as decimal strings), empty for primitives. -/
def entriesOf : JsVal → List (String × JsVal)
  | .obj fs => fs
  | .arr l => l.enum.map fun p => (toString p.1, p.2)
  | _ => []

/-- JS property read `v.k` on a dynamic value (`undefined` = `none`). -/
def getProp (v : JsVal) (k : String) : Option JsVal :=
  findEntry (entriesOf v) k

/-- The check `typeof v !== 'object' || !v` from the head of
`parseRawToModel`: only (truthy) objects and arrays pass. -/
def jsObjectLike : JsVal → Bool
  | .obj _ => true
  | .arr _ => true
  | _ => false

/-- Config format, from `detectKindByExt` (`.json` / `.yaml` / `.yml` /
`.ini`); files with other extensions are rejected upstream and never reach
the functions modelled here. -/
inductive Kind where
  | json
  | yaml
  | ini
deriving DecidableEq

/-- A client record of the normalized model: the ordered fields of the
record object (`connectionString`, optional `active`, extra fields). -/
abbrev ClientRec := List (String × JsVal)

/-- The normalized in-memory model `{ clients: { key -> record } }` built
by `parseRawToModel`: insertion-ordered mapping from client key to record. -/
structure Model where
  clients : List (String × ClientRec)

/-- Transcription of `validateConnectionString` (config-loader.js).
The JS checks `!connectionString || typeof connectionString !== 'string'`
first (non-strings and the empty string), then rejects
whitespace-only strings via `trim`. -/
def validateConnectionString (cs : Option JsVal) (key : String) : Except String Unit :=
  match cs with
  | some (.str s) =>
    if s == "" then
      .error s!"Client \"{key}\": connectionString must be a non-empty string"
    else if jsTrim s == "" then
      .error s!"Client \"{key}\": connectionString cannot be empty or whitespace"
    else
      .ok ()
  | _ => .error s!"Client \"{key}\": connectionString must be a non-empty string"

/-- Transcription of the `active` coercion inside `parseRawToModel`
(lines 67-76): strings compare case-insensitively against
true/1/yes, numbers against zero, everything else through `!!`. -/
def coerceActive : JsVal → Bool
  | .str s =>
    let low := jsToLower s
    low == "true" || low == "1" || low == "yes"
  | .num n => n != 0
  | v => truthy v

/-- The field-level part of normalizing one client entry: validate
`connectionString` on the copied record (`{ ...val }`), then coerce
`active` when the property is present. -/
def normalizeFields (key : String) (fs : ClientRec) : Except String ClientRec :=
  match validateConnectionString (findEntry fs "connectionString") key with
  | .error e => .error e
  | .ok _ =>
    match findEntry fs "active" with
    | none => .ok fs
    | some a => .ok (setField fs "active" (.bool (coerceActive a)))

/-- Transcription of the per-entry body of `parseRawToModel`'s loop over
`Object.entries(data.clients)`: reject non-object entries (`!val ||
typeof val !== 'object'`, which lets objects and arrays through), then
validate and coerce the fields. -/
def normalizeClientRec (key : String) (val : JsVal) : Except String ClientRec :=
  match val with
  | .obj fs => normalizeFields key fs
  | .arr l => normalizeFields key (entriesOf (.arr l))
  | _ => .error s!"Client \"{key}\" must be an object with at least a connectionString field"

/-- Normalize the entries of the client mapping in order, failing on the
first invalid entry (the `for...of Object.entries` loop). -/
def normalizeEntries : List (String × JsVal) → Except String (List (String × ClientRec))
  | [] => .ok []
  | (k, v) :: rest =>
    match normalizeClientRec k v with
    | .error e => .error e
    | .ok r =>
      match normalizeEntries rest with
      | .error e => .error e
      | .ok rs => .ok ((k, r) :: rs)

/-- The client-mapping selection of `parseRawToModel` (lines 35-47):
ini input is wrapped as `{ clients: raw }`; json/yaml input is used as-is,
except that when `data.clients` is falsy (absent, null, false, 0, empty
string) the whole structure is wrapped as `{ clients: data }`. -/
def resolvedClients (raw : JsVal) (kind : Kind) : JsVal :=
  let data : JsVal := match kind with
    | .ini => .obj [("clients", raw)]
    | _ => raw
  let data : JsVal :=
    if kind != .ini && !(truthyOpt (getProp data "clients")) then
      .obj [("clients", data)]
    else
      data
  (getProp data "clients").getD .null

/-- The check `!data.clients || typeof data.clients !== 'object' ||
Object.keys(data.clients).length === 0` (truthy object/array with at
least one key). -/
def clientsMappingOk (c : JsVal) : Bool :=
  truthy c && jsObjectLike c && (entriesOf c).length != 0

/-- Transcription of `parseRawToModel` (config-loader.js lines 30-82). -/
def parseRawToModel (raw : JsVal) (kind : Kind) : Except String Model :=
  if !(jsObjectLike raw) then
    .error "Config file must contain a valid object"
  else
    let c := resolvedClients raw kind
    if !(clientsMappingOk c) then
      .error "Config must contain at least one client definition"
    else
      match normalizeEntries (entriesOf c) with
      | .error e => .error e
      | .ok cls => .ok ⟨cls⟩

/-- Transcription of `serializeModel` (config-loader.js lines 90-101),
composed with the external re-parse: for json/yaml the whole model object
`{ clients: ... }` is emitted, for ini only `model.clients` (one section
per client).  The result is the raw structure a re-read of the written
file hands back to `parseRawToModel`. -/
def serializeModel (m : Model) (kind : Kind) : JsVal :=
  match kind with
  | .json => .obj [("clients", .obj (m.clients.map fun p => (p.1, .obj p.2)))]
  | .yaml => .obj [("clients", .obj (m.clients.map fun p => (p.1, .obj p.2)))]
  | .ini => .obj (m.clients.map fun p => (p.1, .obj p.2))

/-- The located on-disk config file: its detected format and the result of
reading+parsing its bytes (`.error` = the read failed or the external
parser threw; `loadConfig` wraps both in a descriptive message). -/
structure ConfigFile where
  kind : Kind
  raw : Except String JsVal

/-- Transcription of `loadConfig` (config-loader.js lines 122-145):
read, parse with the format's codec, then normalize. -/
def loadConfig (file : ConfigFile) : Except String Model :=
  match file.raw with
  | .error e => .error e
  | .ok raw => parseRawToModel raw file.kind

/-- The comma-separated key list used in error messages:
`Object.keys(model.clients).join(', ')`. -/
def availableClients (m : Model) : String :=
  String.intercalate ", " (m.clients.map Prod.fst)

/-- The tagging `{ key, ...item }` used by the resolver functions: start
from a `key` property holding the map key, then spread the record's own
fields over it (so a record field literally named `key` overwrites the
tag, as JS spread does). -/
def tagRec (key : String) (item : ClientRec) : ClientRec :=
  item.foldl (fun acc p => setField acc p.1 p.2) [("key", .str key)]

/-- Truthiness of a record's `active` field (`!!v.active`). -/
def activeTruthy (fs : ClientRec) : Bool :=
  truthyOpt (findEntry fs "active")

/-- The persisted-flag scan of `getActiveConnection` (index.js lines
122-132): filter the entries whose `active` is truthy, return `null` when
there are none, else tag and return the first. -/
def scanActives (m : Model) : Except String (Option ClientRec) :=
  let actives := m.clients.filter fun p => activeTruthy p.2
  match actives.head? with
  | none => .ok none
  | some p => .ok (some (tagRec p.1 p.2))

/-- Transcription of the resolver part of `getActiveConnection` (index.js
lines 110-132), after the config file has been located and loaded into
`m`.  `envKey` is `process.env.DB_CLIENT` (`none` = unset); the JS guard
is `if (envKey)`, so an empty-string value is falsy and falls through to
the persisted-flag scan. -/
def getActiveConnection (m : Model) (envKey : Option String) : Except String (Option ClientRec) :=
  match envKey with
  | some k =>
    if k == "" then
      scanActives m
    else
      match findEntry m.clients k with
      | none =>
        .error s!"DB_CLIENT=\"{k}\" does not match any client in config. Available clients: {availableClients m}"
      | some item => .ok (some (tagRec k item))
  | none => scanActives m

/-- Transcription of the mapping part of `listConnections` (index.js line
148), after load: every client in model order, tagged. -/
def listConnections (m : Model) : List ClientRec :=
  m.clients.map fun p => tagRec p.1 p.2

/-- Transcription of `getConnectionByKey` (index.js lines 158-176) after
load: validate the key argument, look it up, tag on hit, `null` on miss. -/
def getConnectionByKey (m : Model) (key : String) : Except String (Option ClientRec) :=
  if key == "" then
    .error "Key must be a non-empty string"
  else
    match findEntry m.clients key with
    | none => .ok none
    | some item => .ok (some (tagRec key item))

/-- The model rewrite inside `setActiveConnection` (index.js lines
208-213): every record is replaced by `{ ...record, active: k === key }`,
in model order. -/
def setActiveModel (m : Model) (key : String) : Model :=
  ⟨m.clients.map fun p => (p.1, setField p.2 "active" (.bool (p.1 == key)))⟩

/-- Transcription of `setActiveConnection` (index.js lines 187-217) over
the filesystem state `st` (`none` = `findConfigFile` found nothing).
Returns the call's result together with the new state; the single write
(`saveConfig`) happens only after every validation and the full load have
succeeded, and stores the serialized rewritten model. -/
def setActiveConnection (st : Option ConfigFile) (key : String) :
    Except String Bool × Option ConfigFile :=
  if key == "" then
    (.error "Key must be a non-empty string", st)
  else
    match st with
    | none => (.error "Config file not found.", st)
    | some file =>
      match loadConfig file with
      | .error e => (.error e, st)
      | .ok model =>
        match findEntry model.clients key with
        | none =>
          (.error s!"Key \"{key}\" not found in config. Available clients: {availableClients model}", st)
        | some _ =>
          let m := setActiveModel model key
          (.ok true, some ⟨file.kind, .ok (serializeModel m file.kind)⟩)

/-- Last binding of a key in an association list (JS spread semantics:
when a source object could carry the key several times, the last write
wins; on unique-key objects this coincides with `findEntry`). -/
def lastEntry : List (String × JsVal) → String → Option JsVal
  | [], _ => none
  | p :: rest, q =>
    match lastEntry rest q with
    | some v => some v
    | none => if p.1 == q then some p.2 else none

/-- Does the record carry a `connectionString` that `validateConnectionString`
accepts (a string, non-empty, and not whitespace-only)? -/
def validConnStr (fs : ClientRec) : Bool :=
  match findEntry fs "connectionString" with
  | some (.str s) => !(s == "") && !(jsTrim s == "")
  | _ => false

/-- Is the record's `active` field, when present, already a boolean
(as normalization guarantees)? -/
def activeIsBool (fs : ClientRec) : Bool :=
  match findEntry fs "active" with
  | none => true
  | some (.bool _) => true
  | some _ => false

/-- Record invariant of the normalized model: unique field names (JS
objects cannot carry a property twice), a valid `connectionString`, and a
boolean `active` when present. -/
def recOk (fs : ClientRec) : Bool :=
  decide (fs.map Prod.fst).Nodup && validConnStr fs && activeIsBool fs

/-- Model invariant established by `parseRawToModel` on real config files:
at least one client, unique client keys (JS objects cannot repeat a key),
and every record satisfying `recOk`. -/
def Normalized (m : Model) : Bool :=
  !(m.clients.isEmpty) && decide (m.clients.map Prod.fst).Nodup
    && (m.clients.all fun p => recOk p.2)

/-! Helper lemmas about the association-list object model. -/

theorem findEntry_setField (fs : List (String × JsVal)) (k : String) (v : JsVal) (q : String) :
    findEntry (setField fs k v) q = if k == q then some v else findEntry fs q := by
  induction fs with
  | nil => simp [setField, findEntry]
  | cons p rest ih =>
    obtain ⟨a, b⟩ := p
    by_cases hp : a = k
    · by_cases h : k = q
      · simp [setField, findEntry, hp, h]
      · have h2 : ¬ a = q := by rw [hp]; exact h
        simp [setField, findEntry, hp, h, h2]
    · by_cases h2 : a = q
      · have hkq : ¬ k = q := by
          intro hh; exact hp (h2.trans hh.symm)
        have hqk : ¬ q = k := fun hh => hkq hh.symm
        simp [setField, findEntry, hp, h2, hkq, hqk]
      · simp [setField, findEntry, hp, h2, ih]

theorem setField_findEntry_eq (fs : List (String × JsVal)) (k : String) (v : JsVal)
    (h : findEntry fs k = some v) : setField fs k v = fs := by
  induction fs with
  | nil => simp [findEntry] at h
  | cons p rest ih =>
    obtain ⟨a, b⟩ := p
    by_cases hp : a = k
    · simp [findEntry, hp] at h
      simp [setField, hp, h]
    · simp [findEntry, hp] at h
      simp [setField, hp, ih h]

theorem keys_setField_of_mem (fs : List (String × JsVal)) (k : String) (v : JsVal)
    (h : k ∈ fs.map Prod.fst) : (setField fs k v).map Prod.fst = fs.map Prod.fst := by
  induction fs with
  | nil => simp at h
  | cons p rest ih =>
    obtain ⟨a, b⟩ := p
    by_cases hp : a = k
    · simp [setField, hp]
    · rw [List.map_cons] at h
      rcases List.mem_cons.mp h with h | h
      · exact absurd h.symm hp
      · simp [setField, hp, ih h]

theorem keys_setField_of_not_mem (fs : List (String × JsVal)) (k : String) (v : JsVal)
    (h : k ∉ fs.map Prod.fst) : (setField fs k v).map Prod.fst = fs.map Prod.fst ++ [k] := by
  induction fs with
  | nil => simp [setField]
  | cons p rest ih =>
    obtain ⟨a, b⟩ := p
    rw [List.map_cons] at h
    have h1 : ¬ a = k := fun hh => h (List.mem_cons.mpr (Or.inl hh.symm))
    have h2 : k ∉ rest.map Prod.fst := fun hh => h (List.mem_cons.mpr (Or.inr hh))
    simp [setField, h1, ih h2]

theorem eraseField_setField (fs : List (String × JsVal)) (k : String) (v : JsVal) :
    eraseField (setField fs k v) k = eraseField fs k := by
  induction fs with
  | nil => simp [setField, eraseField]
  | cons p rest ih =>
    obtain ⟨a, b⟩ := p
    by_cases hp : a = k
    · simp [setField, eraseField, List.filter_cons, hp]
    · simp only [setField, eraseField, List.filter_cons] at ih ⊢
      simp [hp, bne_iff_ne, ih]

theorem findEntry_eq_none_of_not_mem {α : Type} (l : List (String × α)) (q : String)
    (h : q ∉ l.map Prod.fst) : findEntry l q = none := by
  induction l with
  | nil => simp [findEntry]
  | cons p rest ih =>
    obtain ⟨a, b⟩ := p
    rw [List.map_cons] at h
    have h1 : ¬ a = q := fun hh => h (List.mem_cons.mpr (Or.inl hh.symm))
    have h2 : q ∉ rest.map Prod.fst := fun hh => h (List.mem_cons.mpr (Or.inr hh))
    simp [findEntry, h1, ih h2]

theorem head?_filter {α : Type} (p : α → Bool) (l : List α) :
    (l.filter p).head? = l.find? p := by
  induction l with
  | nil => simp
  | cons a rest ih =>
    by_cases h : p a <;> simp [List.filter_cons, List.find?_cons, h, ih]

theorem findEntry_map_keyfun (l : List (String × ClientRec)) (g : String → ClientRec → ClientRec)
    (q : String) :
    findEntry (l.map fun p => (p.1, g p.1 p.2)) q = (findEntry l q).map (g q) := by
  induction l with
  | nil => simp [findEntry]
  | cons p rest ih =>
    obtain ⟨a, b⟩ := p
    by_cases h : a = q
    · simp [findEntry, h]
    · simp [findEntry, h, ih]

theorem lastEntry_eq_none_of_not_mem (l : List (String × JsVal)) (q : String)
    (h : q ∉ l.map Prod.fst) : lastEntry l q = none := by
  induction l with
  | nil => simp [lastEntry]
  | cons p rest ih =>
    obtain ⟨a, b⟩ := p
    rw [List.map_cons] at h
    have h1 : ¬ a = q := fun hh => h (List.mem_cons.mpr (Or.inl hh.symm))
    have h2 : q ∉ rest.map Prod.fst := fun hh => h (List.mem_cons.mpr (Or.inr hh))
    simp [lastEntry, h1, ih h2]

theorem lastEntry_eq_findEntry (l : List (String × JsVal)) (q : String)
    (h : (l.map Prod.fst).Nodup) : lastEntry l q = findEntry l q := by
  induction l with
  | nil => simp [lastEntry, findEntry]
  | cons p rest ih =>
    obtain ⟨a, b⟩ := p
    rw [List.map_cons, List.nodup_cons] at h
    by_cases hp : a = q
    · have hq : q ∉ rest.map Prod.fst := fun hq => h.1 (hp ▸ hq)
      simp [lastEntry, findEntry, hp, lastEntry_eq_none_of_not_mem rest q hq]
    · simp only [lastEntry, findEntry, ih h.2]
      cases findEntry rest q <;> simp [hp]

theorem findEntry_foldl_setField (item : List (String × JsVal)) :
    ∀ (acc : List (String × JsVal)) (q : String),
      findEntry (item.foldl (fun a p => setField a p.1 p.2) acc) q =
        match lastEntry item q with
        | some v => some v
        | none => findEntry acc q := by
  induction item with
  | nil => intro acc q; simp [lastEntry]
  | cons p rest ih =>
    intro acc q
    simp only [List.foldl_cons, ih, lastEntry, findEntry_setField]
    cases lastEntry rest q <;> by_cases h : p.1 = q <;> simp [h]

theorem findEntry_tagRec (kk : String) (item : ClientRec) (q : String) :
    findEntry (tagRec kk item) q =
      match lastEntry item q with
      | some v => some v
      | none => if q == "key" then some (.str kk) else none := by
  unfold tagRec
  rw [findEntry_foldl_setField]
  cases lastEntry item q <;> by_cases h : q = "key"
  · simp [findEntry, h]
  · have h2 : ¬ "key" = q := fun hh => h hh.symm
    simp [findEntry, h, h2]
  · simp [findEntry, h]
  · have h2 : ¬ "key" = q := fun hh => h hh.symm
    simp [findEntry, h, h2]

/-! Lemmas about normalization and the round trip through the codecs. -/

theorem validateConnectionString_ok (fs : ClientRec) (key : String)
    (h : validConnStr fs = true) :
    validateConnectionString (findEntry fs "connectionString") key = .ok () := by
  unfold validConnStr at h
  split at h
  case _ s heq =>
    rw [heq]
    unfold validateConnectionString
    rw [Bool.and_eq_true] at h
    simp only [Bool.not_eq_true'] at h
    simp [h.1, h.2]
  case _ => exact absurd h (by simp)

theorem normalizeFields_id (key : String) (fs : ClientRec)
    (h : recOk fs = true) : normalizeFields key fs = .ok fs := by
  unfold recOk at h
  rw [Bool.and_eq_true, Bool.and_eq_true] at h
  obtain ⟨⟨-, hvalid⟩, hbool⟩ := h
  unfold normalizeFields
  rw [validateConnectionString_ok fs key hvalid]
  unfold activeIsBool at hbool
  split at hbool
  case _ heq => rw [heq]
  case _ b heq =>
    rw [heq]
    simp only [Except.ok.injEq]
    have : coerceActive (.bool b) = b := by simp [coerceActive, truthy]
    rw [this]
    exact setField_findEntry_eq fs "active" (.bool b) heq
  case _ => exact absurd hbool (by simp)

theorem normalizeClientRec_id (key : String) (fs : ClientRec)
    (h : recOk fs = true) : normalizeClientRec key (.obj fs) = .ok fs :=
  normalizeFields_id key fs h

theorem normalizeEntries_id (l : List (String × ClientRec))
    (h : ∀ p ∈ l, recOk p.2 = true) :
    normalizeEntries (l.map fun p => (p.1, .obj p.2)) = .ok l := by
  induction l with
  | nil => rfl
  | cons p rest ih =>
    obtain ⟨k, fs⟩ := p
    have h1 : recOk fs = true := h (k, fs) (List.mem_cons_self _ _)
    have h2 : ∀ p ∈ rest, recOk p.2 = true := fun q hq => h q (List.mem_cons_of_mem _ hq)
    simp only [List.map_cons, normalizeEntries, normalizeClientRec_id k fs h1, ih h2]

theorem parseRawToModel_serializeModel (m : Model) (kind : Kind)
    (h : Normalized m = true) : parseRawToModel (serializeModel m kind) kind = .ok m := by
  unfold Normalized at h
  rw [Bool.and_eq_true, Bool.and_eq_true] at h
  obtain ⟨⟨hne, -⟩, hall⟩ := h
  have hrec : ∀ p ∈ m.clients, recOk p.2 = true := by
    intro p hp
    exact List.all_eq_true.mp hall p hp
  have hlen : (m.clients.map fun p => (p.1, JsVal.obj p.2)).length ≠ 0 := by
    simp only [Bool.not_eq_true'] at hne
    rw [List.isEmpty_eq_false_iff_exists_mem] at hne
    obtain ⟨x, hx⟩ := hne
    simp only [List.length_map]
    intro hl
    rw [List.length_eq_zero] at hl
    rw [hl] at hx
    exact List.not_mem_nil x hx
  have hlen2 : ((m.clients.map fun p => (p.1, JsVal.obj p.2)).length != 0) = true := by
    simpa [bne_iff_ne] using hlen
  have hnil : ¬ m.clients = [] := by
    intro hl
    rw [hl] at hne
    simp [List.isEmpty] at hne
  cases kind <;>
    simp [parseRawToModel, serializeModel, resolvedClients, getProp, entriesOf, findEntry,
      truthyOpt, truthy, jsObjectLike, clientsMappingOk, hlen2, hnil,
      normalizeEntries_id m.clients hrec]

theorem validConnStr_setField_active (fs : ClientRec) (v : JsVal) :
    validConnStr (setField fs "active" v) = validConnStr fs := by
  unfold validConnStr
  rw [findEntry_setField]
  simp

theorem recOk_setField_active (fs : ClientRec) (b : Bool)
    (h : recOk fs = true) : recOk (setField fs "active" (.bool b)) = true := by
  unfold recOk at h ⊢
  rw [Bool.and_eq_true, Bool.and_eq_true] at h
  obtain ⟨⟨hnd, hvalid⟩, -⟩ := h
  rw [Bool.and_eq_true, Bool.and_eq_true]
  refine ⟨⟨?_, ?_⟩, ?_⟩
  · rw [decide_eq_true_iff] at hnd ⊢
    by_cases hmem : "active" ∈ fs.map Prod.fst
    · rw [keys_setField_of_mem fs _ _ hmem]; exact hnd
    · rw [keys_setField_of_not_mem fs _ _ hmem]
      exact List.Nodup.append hnd (List.nodup_singleton _)
        (by simpa [List.disjoint_singleton] using hmem)
  · rw [validConnStr_setField_active]; exact hvalid
  · unfold activeIsBool
    rw [findEntry_setField]
    simp

theorem normalized_setActiveModel (m : Model) (key : String)
    (h : Normalized m = true) : Normalized (setActiveModel m key) = true := by
  unfold Normalized at h ⊢
  rw [Bool.and_eq_true, Bool.and_eq_true] at h
  obtain ⟨⟨hne, hnd⟩, hall⟩ := h
  rw [Bool.and_eq_true, Bool.and_eq_true]
  refine ⟨⟨?_, ?_⟩, ?_⟩
  · unfold setActiveModel
    simp only [Bool.not_eq_true'] at hne ⊢
    cases hcl : m.clients with
    | nil => rw [hcl] at hne; simp [List.isEmpty] at hne
    | cons a l => simp
  · unfold setActiveModel
    simpa using hnd
  · unfold setActiveModel
    rw [List.all_eq_true] at hall ⊢
    intro p hp
    simp only [List.mem_map] at hp
    obtain ⟨q, hq, rfl⟩ := hp
    exact recOk_setField_active q.2 _ (hall q hq)

theorem filter_activeTruthy_setActiveModel (m : Model) (key : String)
    (hnd : (m.clients.map Prod.fst).Nodup) (hmem : key ∈ m.clients.map Prod.fst) :
    (((setActiveModel m key).clients.filter fun p => activeTruthy p.2).map Prod.fst) = [key] := by
  unfold setActiveModel
  have hpt : ∀ (p : String × ClientRec),
      activeTruthy (setField p.2 "active" (.bool (p.1 == key))) = (p.1 == key) := by
    intro p
    unfold activeTruthy
    rw [findEntry_setField]
    simp [truthyOpt, truthy]
  rw [List.filter_map]
  rw [List.map_map]
  have hcomp : ((fun p => activeTruthy p.2) ∘ fun p : String × ClientRec =>
      (p.1, setField p.2 "active" (.bool (p.1 == key)))) = fun p : String × ClientRec => p.1 == key := by
    funext p
    exact hpt p
  rw [hcomp]
  have hfst : (Prod.fst ∘ fun p : String × ClientRec =>
      (p.1, setField p.2 "active" (.bool (p.1 == key)))) = Prod.fst := by
    funext p; rfl
  rw [hfst]
  revert hnd hmem
  induction m.clients with
  | nil => intro _ hmem; simp at hmem
  | cons p rest ih =>
    intro hnd hmem
    obtain ⟨a, b⟩ := p
    rw [List.map_cons, List.nodup_cons] at hnd
    rw [List.map_cons] at hmem
    by_cases ha : a = key
    · have hnotin : key ∉ rest.map Prod.fst := ha ▸ hnd.1
      have hfil : rest.filter (fun p : String × ClientRec => p.1 == key) = [] := by
        rw [List.filter_eq_nil_iff]
        intro q hq
        simp only [bne_iff_ne, ne_eq, beq_iff_eq]
        intro hk
        exact hnotin (hk ▸ List.mem_map_of_mem Prod.fst hq)
      simp [List.filter_cons, ha, hfil]
    · have hmem2 : key ∈ rest.map Prod.fst := by
        rcases List.mem_cons.mp hmem with h | h
        · exact absurd h.symm ha
        · exact h
      simp only [List.filter_cons, beq_iff_eq, ha]
      simpa [ha] using ih hnd.2 hmem2

theorem mem_keys_of_findEntry {α : Type} (l : List (String × α)) (q : String) (v : α)
    (h : findEntry l q = some v) : q ∈ l.map Prod.fst := by
  induction l with
  | nil => simp [findEntry] at h
  | cons p rest ih =>
    obtain ⟨a, b⟩ := p
    by_cases ha : a = q
    · rw [List.map_cons]
      exact List.mem_cons.mpr (Or.inl ha.symm)
    · rw [findEntry, if_neg (by simpa using ha)] at h
      rw [List.map_cons]
      exact List.mem_cons.mpr (Or.inr (ih h))

/-! Claim theorems. -/

/-- C4: with no environment override set, `getActiveConnection` scans
`model.clients` in model order over entries whose `active` field is
truthy: if none is truthy it returns `null` (not an error); if one or
more are truthy it returns the first such entry in model order (tagged
with its key), silently tolerating multiple simultaneously active
entries — `List.find?` returns the first match in model order and
ignores any later ones. -/
theorem claim4_scan_first_active (m : Model) :
    getActiveConnection m none =
      .ok ((m.clients.find? fun p => activeTruthy p.2).map fun p => tagRec p.1 p.2) := by
  simp only [getActiveConnection, scanActives, head?_filter]
  cases (m.clients.find? fun p => activeTruthy p.2) <;> simp

/-- C9: `DB_CLIENT` set to the empty string is falsy under the JS guard
`if (envKey)`, so `getActiveConnection` treats it exactly as if no
override were set: it does not fail with an unknown-client error but
falls through to the persisted-active-flag scan (first truthy-active
client in model order, or `null`). -/
theorem claim9_empty_env_falls_through (m : Model) :
    getActiveConnection m (some "") = getActiveConnection m none ∧
    getActiveConnection m (some "") =
      .ok ((m.clients.find? fun p => activeTruthy p.2).map fun p => tagRec p.1 p.2) := by
  constructor
  · rfl
  · simp only [getActiveConnection, scanActives, head?_filter]
    cases (m.clients.find? fun p => activeTruthy p.2) <;> simp

/-- C2, amended: for every model whose clients mapping contains a
NON-EMPTY key `K`, if `DB_CLIENT` is set to `K` then `getActiveConnection`
returns `K`'s record tagged with key `K` (via the spread
`{ key: K, ...item }`), regardless of which clients have a persisted
`active` flag.  The non-emptiness proviso is forced by
`claim2_counterexample`: the JS guard `if (envKey)` treats the empty
string as no override at all. -/
theorem claim2_env_override_precedence (m : Model) (K : String) (item : ClientRec)
    (hK : K ≠ "") (hfind : findEntry m.clients K = some item) :
    getActiveConnection m (some K) = .ok (some (tagRec K item)) := by
  unfold getActiveConnection
  simp [hK, hfind]

/-- Witness for C2 at a concrete model: `DB_CLIENT=b` wins even though
only `a` carries the persisted `active = true` flag. -/
theorem claim2_env_override_precedence_witness :
    ("b" : String) ≠ "" ∧
    findEntry (Model.mk [("a", [("connectionString", JsVal.str "ca"), ("active", JsVal.bool true)]),
      ("b", [("connectionString", JsVal.str "cb"), ("active", JsVal.bool false)])]).clients "b"
      = some [("connectionString", JsVal.str "cb"), ("active", JsVal.bool false)] ∧
    getActiveConnection ⟨[("a", [("connectionString", JsVal.str "ca"), ("active", JsVal.bool true)]),
      ("b", [("connectionString", JsVal.str "cb"), ("active", JsVal.bool false)])]⟩ (some "b")
      = .ok (some (tagRec "b" [("connectionString", JsVal.str "cb"), ("active", JsVal.bool false)])) :=
  ⟨by decide, rfl,
    claim2_env_override_precedence _ "b" _ (by decide) rfl⟩

/-- Counterexample to C2 as stated: the claim quantifies over EVERY key
present in `model.clients`, but for the (reachable, normalized) model
whose only client key is the empty string, `DB_CLIENT=""` does not return
that client's record — the JS guard `if (envKey)` is falsy on the empty
string, so the call falls through to the scan and yields `null`. -/
theorem claim2_counterexample :
    parseRawToModel (.obj [("", .obj [("connectionString", .str "db")])]) .json
      = .ok ⟨[("", [("connectionString", JsVal.str "db")])]⟩ ∧
    Normalized ⟨[("", [("connectionString", JsVal.str "db")])]⟩ = true ∧
    findEntry (Model.mk [("", [("connectionString", JsVal.str "db")])]).clients ""
      = some [("connectionString", JsVal.str "db")] ∧
    getActiveConnection ⟨[("", [("connectionString", JsVal.str "db")])]⟩ (some "") = .ok none ∧
    (Except.ok none
      ≠ (.ok (some (tagRec "" [("connectionString", JsVal.str "db")]))
          : Except String (Option ClientRec))) := by
  refine ⟨rfl, by decide, rfl, rfl, ?_⟩
  intro h
  rw [Except.ok.injEq] at h
  exact Option.noConfusion h

/-- C3, amended: if `DB_CLIENT` is set to a NON-EMPTY key absent from
`model.clients` then `getActiveConnection` fails with an error naming the
requested key and listing the available keys; it never silently falls
back to the persisted active flag.  The non-emptiness proviso is forced
by `claim3_counterexample`: an empty-string `DB_CLIENT` is falsy under
`if (envKey)` and falls through to the scan instead of erroring. -/
theorem claim3_unknown_override_fails (m : Model) (K : String)
    (hK : K ≠ "") (hfind : findEntry m.clients K = none) :
    getActiveConnection m (some K) =
      .error s!"DB_CLIENT=\"{K}\" does not match any client in config. Available clients: {availableClients m}" := by
  unfold getActiveConnection
  simp [hK, hfind]

/-- Witness for C3 at a concrete model: `DB_CLIENT=zz` with clients
`a, b` fails with the message naming `zz` and listing `a, b`. -/
theorem claim3_unknown_override_fails_witness :
    ("zz" : String) ≠ "" ∧
    findEntry (Model.mk [("a", [("connectionString", JsVal.str "ca")]),
      ("b", [("connectionString", JsVal.str "cb")])]).clients "zz" = none ∧
    getActiveConnection ⟨[("a", [("connectionString", JsVal.str "ca")]),
      ("b", [("connectionString", JsVal.str "cb")])]⟩ (some "zz")
      = .error "DB_CLIENT=\"zz\" does not match any client in config. Available clients: a, b" :=
  ⟨by decide, rfl,
    claim3_unknown_override_fails _ "zz" (by decide) rfl⟩

/-- Counterexample to C3 as stated: the empty string is a key absent from
this model's clients, yet `getActiveConnection` with `DB_CLIENT=""` does
not fail — it silently falls back to the persisted-flag scan and returns
the active client `a`. -/
theorem claim3_counterexample :
    (Model.mk [("a", [("connectionString", JsVal.str "db"), ("active", JsVal.bool true)])]).clients.map Prod.fst
      = ["a"] ∧
    findEntry (Model.mk [("a", [("connectionString", JsVal.str "db"), ("active", JsVal.bool true)])]).clients ""
      = none ∧
    getActiveConnection ⟨[("a", [("connectionString", JsVal.str "db"), ("active", JsVal.bool true)])]⟩ (some "")
      = .ok (some (tagRec "a" [("connectionString", JsVal.str "db"), ("active", JsVal.bool true)])) :=
  ⟨rfl, rfl, rfl⟩

/-- C8: whenever `setActiveConnection` fails — invalid key argument,
no config file, a read/parse/normalization error, or an unknown key —
the on-disk state is left completely unchanged: every validation and the
full load occur before the single write at the end of the function. -/
theorem claim8_no_write_on_failure (st : Option ConfigFile) (key : String) (e : String)
    (h : (setActiveConnection st key).1 = .error e) :
    (setActiveConnection st key).2 = st := by
  by_cases hk : key = ""
  · simp [setActiveConnection, hk]
  · cases st with
    | none => simp [setActiveConnection, hk]
    | some file =>
      cases hload : loadConfig file with
      | error e2 => simp [setActiveConnection, hk, hload]
      | ok model =>
        cases hfind : findEntry model.clients key with
        | none => simp [setActiveConnection, hk, hload, hfind]
        | some item =>
          exfalso
          simp [setActiveConnection, hk, hload, hfind] at h

/-- Witness for C8: a failing call (no config file located) leaves the
state (no file) unchanged. -/
theorem claim8_no_write_on_failure_witness :
    (setActiveConnection none "x").1 = .error "Config file not found." ∧
    (setActiveConnection none "x").2 = none :=
  ⟨rfl, claim8_no_write_on_failure none "x" "Config file not found." rfl⟩

/-- C10: when a client record carries an extra preserved field literally
named `key`, the tagged objects built by `{ key, ...item }` — returned by
`listConnections`, `getConnectionByKey`, and the persisted-flag branch of
`getActiveConnection` — have their `key` property equal to that field's
value rather than the client's map key, because the record's own fields
are spread after the tag. -/
theorem claim10_key_field_overrides_tag (m : Model) (k : String) (item : ClientRec) (w : JsVal)
    (hhead : m.clients.head? = some (k, item)) (hk : k ≠ "")
    (hnd : (item.map Prod.fst).Nodup)
    (hkey : findEntry item "key" = some w) (hact : activeTruthy item = true) :
    findEntry (tagRec k item) "key" = some w ∧
    getConnectionByKey m k = .ok (some (tagRec k item)) ∧
    tagRec k item ∈ listConnections m ∧
    getActiveConnection m none = .ok (some (tagRec k item)) := by
  have h1 : findEntry (tagRec k item) "key" = some w := by
    rw [findEntry_tagRec, lastEntry_eq_findEntry item "key" hnd, hkey]
  obtain ⟨cl⟩ := m
  cases cl with
  | nil => simp at hhead
  | cons p rest =>
    have hp : p = (k, item) := by simpa using hhead
    subst hp
    refine ⟨h1, ?_, ?_, ?_⟩
    · simp [getConnectionByKey, hk, findEntry]
    · simp [listConnections]
    · simp only [getActiveConnection, scanActives]
      simp [List.filter_cons, hact]

/-- Witness for C10 at a concrete model: client `a` is first and active,
its record carries a literal `key` field with value `"zzz"`, and the
tagged object exposes `"zzz"` as its `key` property, not `"a"`. -/
theorem claim10_key_field_overrides_tag_witness :
    (Model.mk [("a", [("connectionString", JsVal.str "ca"), ("key", JsVal.str "zzz"),
      ("active", JsVal.bool true)])]).clients.head?
      = some ("a", [("connectionString", JsVal.str "ca"), ("key", JsVal.str "zzz"),
        ("active", JsVal.bool true)]) ∧
    findEntry [("connectionString", JsVal.str "ca"), ("key", JsVal.str "zzz"),
      ("active", JsVal.bool true)] "key" = some (JsVal.str "zzz") ∧
    findEntry (tagRec "a" [("connectionString", JsVal.str "ca"), ("key", JsVal.str "zzz"),
      ("active", JsVal.bool true)]) "key" = some (JsVal.str "zzz") ∧
    getActiveConnection ⟨[("a", [("connectionString", JsVal.str "ca"), ("key", JsVal.str "zzz"),
      ("active", JsVal.bool true)])]⟩ none
      = .ok (some (tagRec "a" [("connectionString", JsVal.str "ca"), ("key", JsVal.str "zzz"),
        ("active", JsVal.bool true)])) :=
  ⟨rfl, rfl,
    (claim10_key_field_overrides_tag
      ⟨[("a", [("connectionString", JsVal.str "ca"), ("key", JsVal.str "zzz"),
        ("active", JsVal.bool true)])]⟩ "a"
      [("connectionString", JsVal.str "ca"), ("key", JsVal.str "zzz"), ("active", JsVal.bool true)]
      (JsVal.str "zzz") rfl (by decide) (by decide) rfl rfl).1,
    (claim10_key_field_overrides_tag
      ⟨[("a", [("connectionString", JsVal.str "ca"), ("key", JsVal.str "zzz"),
        ("active", JsVal.bool true)])]⟩ "a"
      [("connectionString", JsVal.str "ca"), ("key", JsVal.str "zzz"), ("active", JsVal.bool true)]
      (JsVal.str "zzz") rfl (by decide) (by decide) rfl rfl).2.2.2⟩

/-- Counterexample to C6 as stated: the claim says values other than the
boolean-like strings and numbers coerce "by generic truthiness", but the
non-empty string literal is truthy in JS while the code coerces every
string outside true/1/yes to `false`: at `active: "false"` the code
yields `false` even though `truthy "false" = true`. -/
theorem claim6_counterexample :
    truthy (JsVal.str "false") = true ∧
    parseRawToModel (.obj [("a", .obj [("connectionString", .str "db"),
        ("active", .str "false")])]) .json
      = .ok ⟨[("a", [("connectionString", JsVal.str "db"), ("active", JsVal.bool false)])]⟩ :=
  ⟨rfl, rfl⟩

/-- C6, amended: normalization coerces a present `active` field with the
code's rule — a string coerces to `true` exactly when it lowercases to
true/1/yes and to `false` otherwise (never by generic truthiness), a
number coerces to whether it is non-zero, and any other present value
coerces by generic truthiness (null and false to `false`; true, objects
and arrays to `true`); an absent `active` field is left absent. -/
theorem claim6_active_coercion (key : String) (fs : ClientRec) (a : JsVal)
    (hvalid : validConnStr fs = true) :
    (findEntry fs "active" = some a →
      normalizeClientRec key (.obj fs) = .ok (setField fs "active" (JsVal.bool (
        match a with
        | .str s => jsToLower s == "true" || jsToLower s == "1" || jsToLower s == "yes"
        | .num n => n != 0
        | .null => false
        | .bool b => b
        | .arr _ => true
        | .obj _ => true)))) ∧
    (findEntry fs "active" = none → normalizeClientRec key (.obj fs) = .ok fs) := by
  constructor
  · intro ha
    show normalizeFields key fs = _
    unfold normalizeFields
    rw [validateConnectionString_ok fs key hvalid, ha]
    cases a <;> rfl
  · intro ha
    show normalizeFields key fs = _
    unfold normalizeFields
    rw [validateConnectionString_ok fs key hvalid, ha]

/-- Witness for C6 at a concrete record: `active: 2` normalizes to
boolean `true`. -/
theorem claim6_active_coercion_witness :
    validConnStr [("connectionString", JsVal.str "db"), ("active", JsVal.num 2)] = true ∧
    normalizeClientRec "a" (.obj [("connectionString", JsVal.str "db"), ("active", JsVal.num 2)])
      = .ok [("connectionString", JsVal.str "db"), ("active", JsVal.bool true)] :=
  ⟨rfl, (claim6_active_coercion "a"
    [("connectionString", JsVal.str "db"), ("active", JsVal.num 2)] (JsVal.num 2) rfl).1 rfl⟩

/-- Counterexample to C7 as stated: this raw json structure has a
`clients` key (with value `null`), yet normalization does NOT use that
value as the client mapping — because the value is falsy, the code wraps
the whole structure instead (`resolvedClients` returns the whole raw
object, not `null`), observably failing on the entry named `clients`
rather than with the empty-mapping error. -/
theorem claim7_counterexample :
    getProp (JsVal.obj [("clients", JsVal.null),
        ("a", JsVal.obj [("connectionString", JsVal.str "s")])]) "clients" = some JsVal.null ∧
    resolvedClients (JsVal.obj [("clients", JsVal.null),
        ("a", JsVal.obj [("connectionString", JsVal.str "s")])]) .json
      = JsVal.obj [("clients", JsVal.null), ("a", JsVal.obj [("connectionString", JsVal.str "s")])] ∧
    JsVal.obj [("clients", JsVal.null), ("a", JsVal.obj [("connectionString", JsVal.str "s")])]
      ≠ JsVal.null ∧
    parseRawToModel (JsVal.obj [("clients", JsVal.null),
        ("a", JsVal.obj [("connectionString", JsVal.str "s")])]) .json
      = .error "Client \"clients\" must be an object with at least a connectionString field" :=
  ⟨rfl, rfl, fun h => JsVal.noConfusion h, rfl⟩

/-- C7, amended: for JSON/YAML object-like raw input, normalization uses
the value of the `clients` key as the client mapping whenever that key is
present with a TRUTHY value; when the key is absent — or present but
falsy (null, false, 0, empty string), as forced by
`claim7_counterexample` — the entire raw structure's top level is
treated as the client mapping. -/
theorem claim7_clients_key_selection (raw : JsVal) (kind : Kind)
    (_hraw : jsObjectLike raw = true) (hkind : kind ≠ .ini) :
    (∀ c, getProp raw "clients" = some c → truthy c = true →
        resolvedClients raw kind = c) ∧
    (getProp raw "clients" = none → resolvedClients raw kind = raw) ∧
    (∀ c, getProp raw "clients" = some c → truthy c = false →
        resolvedClients raw kind = raw) := by
  refine ⟨?_, ?_, ?_⟩
  · intro c hc htr
    cases kind with
    | ini => exact absurd rfl hkind
    | json => simp [resolvedClients, hc, truthyOpt, htr]
    | yaml => simp [resolvedClients, hc, truthyOpt, htr]
  · intro hc
    have h2 : truthyOpt (getProp raw "clients") = false := by rw [hc]; rfl
    cases kind with
    | ini => exact absurd rfl hkind
    | json =>
      simp only [resolvedClients, h2]
      simp [getProp, entriesOf, findEntry]
    | yaml =>
      simp only [resolvedClients, h2]
      simp [getProp, entriesOf, findEntry]
  · intro c hc htr
    have h2 : truthyOpt (getProp raw "clients") = false := by rw [hc]; exact htr
    cases kind with
    | ini => exact absurd rfl hkind
    | json =>
      simp only [resolvedClients, h2]
      simp [getProp, entriesOf, findEntry]
    | yaml =>
      simp only [resolvedClients, h2]
      simp [getProp, entriesOf, findEntry]

/-- Witness for C7 at concrete raw structures: with a truthy `clients`
key its value is selected; without one the whole structure is selected. -/
theorem claim7_clients_key_selection_witness :
    jsObjectLike (JsVal.obj [("clients",
      JsVal.obj [("a", JsVal.obj [("connectionString", JsVal.str "db")])])]) = true ∧
    Kind.json ≠ Kind.ini ∧
    resolvedClients (JsVal.obj [("clients",
      JsVal.obj [("a", JsVal.obj [("connectionString", JsVal.str "db")])])]) .json
      = JsVal.obj [("a", JsVal.obj [("connectionString", JsVal.str "db")])] ∧
    resolvedClients (JsVal.obj [("a", JsVal.obj [("connectionString", JsVal.str "db")])]) .json
      = JsVal.obj [("a", JsVal.obj [("connectionString", JsVal.str "db")])] :=
  ⟨rfl, by decide,
    (claim7_clients_key_selection (JsVal.obj [("clients",
      JsVal.obj [("a", JsVal.obj [("connectionString", JsVal.str "db")])])]) .json rfl (by decide)).1
      (JsVal.obj [("a", JsVal.obj [("connectionString", JsVal.str "db")])]) rfl rfl,
    (claim7_clients_key_selection
      (JsVal.obj [("a", JsVal.obj [("connectionString", JsVal.str "db")])]) .json rfl
      (by decide)).2.1 rfl⟩

/-- C5: for every normalized model and every format kind (json, yaml,
ini), encoding the model with that format's codec and then decoding and
normalizing the result through the same codec yields the model back
unchanged — in particular with identical client keys, identical
connection strings, and identical active flags. -/
theorem claim5_codec_roundtrip (m : Model) (kind : Kind) (h : Normalized m = true) :
    parseRawToModel (serializeModel m kind) kind = .ok m :=
  parseRawToModel_serializeModel m kind h

/-- Witness for C5 at a concrete normalized model, for all three
format kinds. -/
theorem claim5_codec_roundtrip_witness :
    Normalized ⟨[("a", [("connectionString", JsVal.str "ca"), ("active", JsVal.bool true)]),
      ("b", [("connectionString", JsVal.str "cb")])]⟩ = true ∧
    parseRawToModel (serializeModel ⟨[("a", [("connectionString", JsVal.str "ca"),
      ("active", JsVal.bool true)]), ("b", [("connectionString", JsVal.str "cb")])]⟩ .json) .json
      = .ok ⟨[("a", [("connectionString", JsVal.str "ca"), ("active", JsVal.bool true)]),
        ("b", [("connectionString", JsVal.str "cb")])]⟩ ∧
    parseRawToModel (serializeModel ⟨[("a", [("connectionString", JsVal.str "ca"),
      ("active", JsVal.bool true)]), ("b", [("connectionString", JsVal.str "cb")])]⟩ .yaml) .yaml
      = .ok ⟨[("a", [("connectionString", JsVal.str "ca"), ("active", JsVal.bool true)]),
        ("b", [("connectionString", JsVal.str "cb")])]⟩ ∧
    parseRawToModel (serializeModel ⟨[("a", [("connectionString", JsVal.str "ca"),
      ("active", JsVal.bool true)]), ("b", [("connectionString", JsVal.str "cb")])]⟩ .ini) .ini
      = .ok ⟨[("a", [("connectionString", JsVal.str "ca"), ("active", JsVal.bool true)]),
        ("b", [("connectionString", JsVal.str "cb")])]⟩ :=
  ⟨by decide,
    claim5_codec_roundtrip _ .json (by decide),
    claim5_codec_roundtrip _ .yaml (by decide),
    claim5_codec_roundtrip _ .ini (by decide)⟩

/-- C1, amended: for every normalized model loaded from the config file
and every NON-EMPTY key present in `model.clients`, `setActiveConnection`
succeeds and persists the rewritten model in the file's own format; in the
rewritten model the target key's `active` field is `true` and every other
key's `active` field is explicitly `false`, the client keys and all
non-`active` fields of every record are unchanged, and re-reading the
persisted file yields exactly that model with exactly one truthy-active
client, namely the target key.  The non-emptiness proviso is forced by
`claim1_counterexample`: the argument validation `!key` rejects the empty
string even when it is a present client key. -/
theorem claim1_set_active_persists (kind : Kind) (raw : JsVal) (m : Model) (key : String)
    (item : ClientRec)
    (hparse : parseRawToModel raw kind = .ok m) (hnorm : Normalized m = true)
    (hkey : key ≠ "") (hfind : findEntry m.clients key = some item) :
    setActiveConnection (some ⟨kind, .ok raw⟩) key
        = (.ok true, some ⟨kind, .ok (serializeModel (setActiveModel m key) kind)⟩) ∧
    (∀ p ∈ (setActiveModel m key).clients,
        findEntry p.2 "active" = some (.bool (p.1 == key))) ∧
    (setActiveModel m key).clients.map Prod.fst = m.clients.map Prod.fst ∧
    (∀ q, (findEntry (setActiveModel m key).clients q).map (fun fs => eraseField fs "active")
        = (findEntry m.clients q).map (fun fs => eraseField fs "active")) ∧
    parseRawToModel (serializeModel (setActiveModel m key) kind) kind
        = .ok (setActiveModel m key) ∧
    ((setActiveModel m key).clients.filter fun p => activeTruthy p.2).map Prod.fst = [key] := by
  have hnd : (m.clients.map Prod.fst).Nodup := by
    unfold Normalized at hnorm
    rw [Bool.and_eq_true, Bool.and_eq_true] at hnorm
    exact of_decide_eq_true hnorm.1.2
  have hnorm2 : Normalized m = true := by
    unfold Normalized
    unfold Normalized at hnorm
    exact hnorm
  refine ⟨?_, ?_, ?_, ?_, ?_, ?_⟩
  · simp [setActiveConnection, loadConfig, hkey, hparse, hfind]
  · intro p hp
    unfold setActiveModel at hp
    simp only [List.mem_map] at hp
    obtain ⟨q, hq, rfl⟩ := hp
    rw [findEntry_setField]
    simp
  · simp [setActiveModel]
  · intro q
    unfold setActiveModel
    rw [findEntry_map_keyfun m.clients (fun a fs => setField fs "active" (.bool (a == key))) q]
    cases findEntry m.clients q <;> simp [eraseField_setField]
  · exact parseRawToModel_serializeModel _ kind (normalized_setActiveModel m key hnorm2)
  · exact filter_activeTruthy_setActiveModel m key hnd (mem_keys_of_findEntry _ _ _ hfind)

/-- Witness for C1 at a concrete two-client json file: switching to `a`
persists a file whose re-read has exactly `a` active. -/
theorem claim1_set_active_persists_witness :
    parseRawToModel (.obj [("clients", .obj [("a", .obj [("connectionString", JsVal.str "ca")]),
        ("b", .obj [("connectionString", JsVal.str "cb"), ("active", JsVal.bool true)])])]) .json
      = .ok ⟨[("a", [("connectionString", JsVal.str "ca")]),
        ("b", [("connectionString", JsVal.str "cb"), ("active", JsVal.bool true)])]⟩ ∧
    Normalized ⟨[("a", [("connectionString", JsVal.str "ca")]),
      ("b", [("connectionString", JsVal.str "cb"), ("active", JsVal.bool true)])]⟩ = true ∧
    ("a" : String) ≠ "" ∧
    findEntry (Model.mk [("a", [("connectionString", JsVal.str "ca")]),
      ("b", [("connectionString", JsVal.str "cb"), ("active", JsVal.bool true)])]).clients "a"
      = some [("connectionString", JsVal.str "ca")] ∧
    setActiveConnection (some ⟨.json, .ok (.obj [("clients",
        .obj [("a", .obj [("connectionString", JsVal.str "ca")]),
          ("b", .obj [("connectionString", JsVal.str "cb"), ("active", JsVal.bool true)])])])⟩) "a"
      = (.ok true, some ⟨.json, .ok (serializeModel (setActiveModel
          ⟨[("a", [("connectionString", JsVal.str "ca")]),
            ("b", [("connectionString", JsVal.str "cb"), ("active", JsVal.bool true)])]⟩ "a") .json)⟩) ∧
    ((setActiveModel ⟨[("a", [("connectionString", JsVal.str "ca")]),
        ("b", [("connectionString", JsVal.str "cb"), ("active", JsVal.bool true)])]⟩ "a").clients.filter
      fun p => activeTruthy p.2).map Prod.fst = ["a"] :=
  ⟨rfl, by decide, by decide, rfl,
    (claim1_set_active_persists .json
      (.obj [("clients", .obj [("a", .obj [("connectionString", JsVal.str "ca")]),
        ("b", .obj [("connectionString", JsVal.str "cb"), ("active", JsVal.bool true)])])])
      ⟨[("a", [("connectionString", JsVal.str "ca")]),
        ("b", [("connectionString", JsVal.str "cb"), ("active", JsVal.bool true)])]⟩ "a"
      [("connectionString", JsVal.str "ca")] rfl (by decide) (by decide) rfl).1,
    (claim1_set_active_persists .json
      (.obj [("clients", .obj [("a", .obj [("connectionString", JsVal.str "ca")]),
        ("b", .obj [("connectionString", JsVal.str "cb"), ("active", JsVal.bool true)])])])
      ⟨[("a", [("connectionString", JsVal.str "ca")]),
        ("b", [("connectionString", JsVal.str "cb"), ("active", JsVal.bool true)])]⟩ "a"
      [("connectionString", JsVal.str "ca")] rfl (by decide) (by decide) rfl).2.2.2.2.2⟩

/-- Counterexample to C1 as stated: the empty string is a key present in
this reachable, normalized model's clients, yet `setActiveConnection`
rejects it with the argument-validation error and persists nothing
(the state is returned unchanged), instead of producing a model with that
key active. -/
theorem claim1_counterexample :
    parseRawToModel (.obj [("", .obj [("connectionString", .str "db")])]) .json
      = .ok ⟨[("", [("connectionString", JsVal.str "db")])]⟩ ∧
    Normalized ⟨[("", [("connectionString", JsVal.str "db")])]⟩ = true ∧
    findEntry (Model.mk [("", [("connectionString", JsVal.str "db")])]).clients ""
      = some [("connectionString", JsVal.str "db")] ∧
    setActiveConnection (some ⟨.json, .ok (.obj [("", .obj [("connectionString", .str "db")])])⟩) ""
      = (.error "Key must be a non-empty string",
        some ⟨.json, .ok (.obj [("", .obj [("connectionString", .str "db")])])⟩) :=
  ⟨rfl, by decide, rfl, rfl⟩

end Mcs
